import Mathlib

/-!
Verification development for the mxwhisper media ingestion pipeline.

Shallow embedding, in Lean 4, of the parts of the repository relevant to the
spec's testable properties: the chunking service
(app/workflows/transcribe/services/ollama_service.py and
app/workflows/transcribe/activities/chunk.py), the topic classifier and
topic-id mapping (app/services/transcription_service.py), the audio-file
store (app/services/audio_file_service.py), the embedding service
(app/services/embedding_service.py), and the job-status writes of the
workflow activities (app/workflows/transcribe/activities/transcribe.py,
embed.py and app/workflows/download/activities/download.py).

External dependencies (the Whisper model, the sentence-transformer encoder,
the LLM HTTP endpoint, SHA-256, the filesystem clock) are modelled as
parameters; the Python code that consumes their results is translated
directly.  Python strings are modelled as Lean `String` (Python `len` and
slicing are code-point based, matching `String.data : List Char`), Python
floats as `Rat`, Python `None` as `Option`.
-/

namespace MxWhisper

/-! ### Python string primitives used by the source -/

/-- Python `str.lower`, restricted to the characters that occur in the data
the services handle (ASCII case folding). -/
def pyLower (s : String) : String := ⟨s.data.map Char.toLower⟩

/-- Python whitespace class `\s` over ASCII: space, tab, newline, carriage
return, vertical tab, form feed. -/
def isPyWs (c : Char) : Bool :=
  c = ' ' || c = '\t' || c = '\n' || c = '\r' || c = '\x0b' || c = '\x0c'

/-- Python `str.strip(chars)`: drop the longest run of characters satisfying
`p` from both ends. -/
def pyStrip (p : Char → Bool) (s : String) : String :=
  ⟨((s.data.dropWhile p).reverse.dropWhile p).reverse⟩

/-- Python `str.strip()` (no argument): strip whitespace from both ends. -/
def pyStripWs (s : String) : String := pyStrip isPyWs s

/-- Bool-valued substring test on character lists. -/
def listInfixB (needle hay : List Char) : Bool :=
  (List.range (hay.length + 1)).any fun i =>
    decide ((hay.drop i).take needle.length = needle)

/-! ### Topic classifier response parsing
Source: `TranscriptionService.analyze_topic_summaries_with_llm`
(app/services/transcription_service.py, lines 526..567). -/

/-- Whether the compiled pattern of the classifier (an optional single or
double quote, then `re.escape(name)`, then an optional single or double
quote, with `re.IGNORECASE`) matches somewhere in `response`.  Both quote
classes are optional and the name is escaped to a literal, so the pattern
matches exactly when `name` occurs in `response` as a case-insensitive
substring. -/
def regexNameMatches (response name : String) : Bool :=
  listInfixB (pyLower name).data (pyLower response).data

/-- First parsing phase of `analyze_topic_summaries_with_llm`: every
canonical name whose pattern matches the response, collected into a set
(modelled as a de-duplicated list). -/
def topicRegexPhase (response : String) (canonical : List String) : List String :=
  (canonical.filter (fun name => regexNameMatches response name)).dedup

/-- The comma-split token list of the fallback phase: Python
`[t.strip().strip(s1).strip(s2) for t in response.split(",") if t.strip()]`
where `s1` is the double-quote character and `s2` the single-quote
character. -/
def comma_tokens (response : String) : List String :=
  (response.splitOn ",").filterMap fun t =>
    if pyStripWs t = "" then none
    else some (pyStrip (fun c => c = '\'') (pyStrip (fun c => c = '"') (pyStripWs t)))

/-- Python dict lookup on an association list built left to right, where a
later binding of the same key overwrites an earlier one. -/
def pyDictGet {α : Type} (entries : List (String × α)) (key : String) : Option α :=
  (entries.reverse.find? (fun e => decide (e.1 = key))).map Prod.snd

/-- Second parsing phase of `analyze_topic_summaries_with_llm`: split the
response on commas, strip whitespace and outer quotes, keep tokens equal to
a canonical name case-insensitively (via the `canonical_lower` dict), as a
set of canonical spellings. -/
def commaFallbackPhase (response : String) (canonical : List String) : List String :=
  let canonical_lower := canonical.map fun n => (pyLower n, n)
  ((comma_tokens response).filterMap fun t => pyDictGet canonical_lower (pyLower t)).dedup

/-- The response-parsing tail of `analyze_topic_summaries_with_llm`
(lines 549..567): regex phase first, comma fallback only when the regex
phase found nothing. -/
def parse_topic_response (response : String) (canonical : List String) : List String :=
  let found := topicRegexPhase response canonical
  if found = [] then commaFallbackPhase response canonical else found

/-- `TranscriptionService.analyze_topic_summaries_with_llm`: on an empty
summary list it returns immediately without consulting the LLM; otherwise
the LLM response text (here a parameter, the call itself being external
I/O) is parsed against the canonical names. -/
def analyze_topic_summaries_with_llm (summaries : List String) (response : String)
    (canonical : List String) : List String :=
  if summaries = [] then [] else parse_topic_response response canonical

/-! ### Topic-name to topic-id mapping
Source: `TranscriptionService.map_topics_to_ids`
(app/services/transcription_service.py, lines 569..591). -/

/-- A row of the `topics` table as read by `map_topics_to_ids`
(`select(Topic.id, Topic.name)`). -/
structure TopicRow where
  id : Nat
  name : String
deriving Repr, DecidableEq

/-- The dict `topic_map` built by `map_topics_to_ids`, binding each topic
name lowered to its id (later rows overwrite earlier ones), looked up at
`key`. -/
def topicMapGet (topics : List TopicRow) (key : String) : Option Nat :=
  pyDictGet (topics.map fun t => (pyLower t.name, t.id)) key

/-- `TranscriptionService.map_topics_to_ids`: each name resolves through
`topic_map.get(name.lower(), unknown_id)` where `unknown_id` is the id
bound to the key `unknown`; `None` results are dropped. -/
def map_topics_to_ids (topics : List TopicRow) (topic_names : List String) : List Nat :=
  if topic_names = [] then []
  else
    let unknown_id := topicMapGet topics "unknown"
    topic_names.filterMap fun name =>
      match topicMapGet topics (pyLower name) with
      | some i => some i
      | none => unknown_id

/-! ### The claim-side resolver compared against `map_topics_to_ids` -/

/-- The behaviour C10 ascribes to name resolution, written from the claim:
a case-insensitive match resolves to that topic's id, a miss resolves to
the Unknown topic's id when one exists and to nothing otherwise. -/
def claimResolve (topics : List TopicRow) (name : String) : Option Nat :=
  match topics.find? (fun t => decide (pyLower t.name = pyLower name)) with
  | some t => some t.id
  | none => (topics.find? fun t => decide (pyLower t.name = "unknown")).map TopicRow.id

/-! ### Chunker data model
Source: app/workflows/transcribe/services/ollama_service.py. -/

/-- A Whisper segment dict as consumed by the chunker: keys `text`, `start`
and the end timestamp (named `stop` here because `end` is a Lean keyword);
the timestamps may be absent. -/
structure Segment where
  text : String := ""
  start : Option Rat := none
  stop : Option Rat := none
  confidence : Option Rat := none
deriving Repr, DecidableEq

/-- The `ChunkMetadata` dataclass of ollama_service.py. -/
structure ChunkMetadata where
  chunk_index : Nat
  text : String
  topic_summary : Option String
  keywords : Option (List String)
  confidence : Option Rat
  start_time : Option Rat
  end_time : Option Rat
  start_char_pos : Nat
  end_char_pos : Nat
deriving Repr, DecidableEq

/-- The chunk-sizing configuration (app/config.py defaults 200 / 500 / 50). -/
structure ChunkSettings where
  chunk_min_tokens : Nat := 200
  chunk_max_tokens : Nat := 500
  chunk_overlap_tokens : Nat := 50
deriving Repr, DecidableEq

/-- Loop body of `OllamaChunker._map_to_timestamps`: walk the segments
accumulating character length; record the start time of the segment
containing `start_char` and break with the end time of the segment
containing `end_char`. -/
def mapToTimestampsLoop (start_char end_char : Nat) :
    List Segment → Nat → Option Rat → Option Rat → Option Rat × Option Rat
  | [], _, st, en => (st, en)
  | seg :: rest, current_pos, st, en =>
    let seg_end_pos := current_pos + seg.text.length
    let st2 := if st.isNone ∧ current_pos ≤ start_char ∧ start_char < seg_end_pos then
        seg.start else st
    if current_pos ≤ end_char ∧ end_char ≤ seg_end_pos then (st2, seg.stop)
    else mapToTimestampsLoop start_char end_char rest seg_end_pos st2 en

/-- `OllamaChunker._map_to_timestamps`: map character positions to segment
timestamps, falling back to the first segment's start and last segment's
end (default 0.0) when the walk does not settle them.  `transcript` is
accepted and ignored exactly as in the source. -/
def mapToTimestamps (start_char end_char : Nat) (_transcript : String)
    (segments : List Segment) : Option Rat × Option Rat :=
  match segments with
  | [] => (none, none)
  | first :: _ =>
    let r := mapToTimestampsLoop start_char end_char segments 0 none none
    let st := match r.1 with
      | none => some (first.start.getD 0)
      | some v => some v
    let en := match r.2 with
      | none => some (((segments.getLast?).map fun s => s.stop.getD 0).getD 0)
      | some v => some v
    (st, en)

/-! ### Sentence splitting for the deterministic fallback -/

/-- Whether the previously read character (head of the reversed
accumulator) is one of the sentence-final punctuation marks of the split
pattern (a lookbehind for a period, exclamation or question mark). -/
def isSentenceBoundary (acc : List Char) : Bool :=
  match acc with
  | p :: _ => p = '.' || p = '!' || p = '?'
  | [] => false

/-- Splitter core for the pattern used by
`OllamaChunker._fallback_sentence_chunking`: split on a maximal whitespace
run immediately preceded by `.`, `!` or `?`, the separator being consumed.
Written as a character-at-a-time state machine so that it is structurally
recursive: `skipping = true` while inside the separator's whitespace run
(the greedy continuation of the whitespace class), during which `acc` is
empty. -/
def splitSentencesAux : List Char → List Char → Bool → List (List Char)
  | [], acc, _ => [acc.reverse]
  | c :: rest, acc, skipping =>
    if skipping && isPyWs c then splitSentencesAux rest acc true
    else if isPyWs c && isSentenceBoundary acc then
      acc.reverse :: splitSentencesAux rest [] true
    else splitSentencesAux rest (c :: acc) false

/-- The sentence list `re.split` produces for the fallback chunker. -/
def splitSentences (transcript : String) : List String :=
  (splitSentencesAux transcript.data [] false).map fun cs => ⟨cs⟩

/-! ### Deterministic sentence fallback
Source: `OllamaChunker._fallback_sentence_chunking` (lines 434..526). -/

/-- Python `" ".join(current_chunk)`. -/
def joinSpace (l : List String) : String := String.intercalate " " l

/-- The overlap carried into the next chunk: scanning the emitted chunk's
sentences from the end, keep sentences while their running length stays
within the cap, stopping at the first that does not fit.  The input here is
the reversed sentence list; the kept prefix, reversed again, is the
original-order overlap. -/
def overlapKeep : List String → Nat → Nat → List String
  | [], _, _ => []
  | s :: rest, cap, acc =>
    if acc + s.length ≤ cap then s :: overlapKeep rest cap (acc + s.length) else []

/-- Loop state of `_fallback_sentence_chunking`. -/
structure FbState where
  chunks : List ChunkMetadata
  current_chunk : List String
  current_length : Nat
  chunk_idx : Nat
  char_pos : Nat
deriving Repr, DecidableEq

/-- One iteration of the sentence loop of `_fallback_sentence_chunking`:
emit a chunk when the running length would exceed the target, carrying the
overlap tail; then append the sentence to the running chunk. -/
def fbStep (target_size overlap_size : Nat) (transcript : String) (segments : List Segment)
    (st : FbState) (sentence : String) : FbState :=
  let st1 :=
    if st.current_length + sentence.length > target_size ∧ st.current_chunk ≠ [] then
      let chunk_text := joinSpace st.current_chunk
      let start_pos := st.char_pos
      let end_pos := st.char_pos + chunk_text.length
      let ts := mapToTimestamps start_pos end_pos transcript segments
      let kept := overlapKeep st.current_chunk.reverse overlap_size 0
      let newChunk : ChunkMetadata :=
        { chunk_index := st.chunk_idx, text := chunk_text,
          topic_summary := none, keywords := none, confidence := none,
          start_time := ts.1, end_time := ts.2,
          start_char_pos := start_pos, end_char_pos := end_pos }
      { chunks := st.chunks ++ [newChunk],
        current_chunk := kept.reverse,
        current_length := (kept.map String.length).sum,
        chunk_idx := st.chunk_idx + 1,
        char_pos := end_pos + 1 }
    else st
  { st1 with current_chunk := st1.current_chunk ++ [sentence],
             current_length := st1.current_length + sentence.length }

/-- `OllamaChunker._fallback_sentence_chunking`: split into sentences,
greedily accumulate under `chunk_max_tokens * 4` characters with
`chunk_overlap_tokens * 4` characters of overlap, then flush the final
chunk. -/
def fallback_sentence_chunking (settings : ChunkSettings) (transcript : String)
    (segments : List Segment) : List ChunkMetadata :=
  let sentences := splitSentences transcript
  let target_size := settings.chunk_max_tokens * 4
  let overlap_size := settings.chunk_overlap_tokens * 4
  let st := sentences.foldl (fbStep target_size overlap_size transcript segments)
    { chunks := [], current_chunk := [], current_length := 0, chunk_idx := 0, char_pos := 0 }
  if st.current_chunk ≠ [] then
    let chunk_text := joinSpace st.current_chunk
    let start_pos := st.char_pos
    let end_pos := st.char_pos + chunk_text.length
    let ts := mapToTimestamps start_pos end_pos transcript segments
    let finalChunk : ChunkMetadata :=
      { chunk_index := st.chunk_idx, text := chunk_text,
        topic_summary := none, keywords := none, confidence := none,
        start_time := ts.1, end_time := ts.2,
        start_char_pos := start_pos, end_char_pos := end_pos }
    st.chunks ++ [finalChunk]
  else st.chunks

/-- `_create_single_chunk` of
app/workflows/transcribe/activities/chunk.py: one chunk covering the whole
transcript with first/last segment times and no topic metadata. -/
def create_single_chunk (transcript : String) (segments : List Segment) :
    List ChunkMetadata :=
  let start_time := match segments with
    | [] => none
    | s :: _ => some (s.start.getD 0)
  let end_time := match segments.getLast? with
    | none => none
    | some s => some (s.stop.getD 0)
  [{ chunk_index := 0, text := transcript, topic_summary := none, keywords := none,
     confidence := none, start_time := start_time, end_time := end_time,
     start_char_pos := 0, end_char_pos := transcript.length }]

/-! ### LLM response parsing and the all-or-nothing contract
Source: `OllamaChunker._parse_ollama_response` (lines 308..385) and
`OllamaChunker.chunk_by_topics` (lines 60..107). -/

/-- One element of the decoded `chunks` array.  Positions are `Option Int`:
`none` models a missing key.  The think-tag stripping, brace extraction and
`json.loads` that precede this structure are the boundary with the external
JSON layer; their failure is `LLMOutcome.failure` below. -/
structure RawChunk where
  start_pos : Option Int
  end_pos : Option Int
  topic : Option String
  keywords : Option (List String)
  confidence : Option Rat
deriving Repr, DecidableEq

/-- Python slice `s[a:b]` for `0 ≤ a ≤ b`. -/
def pySlice (s : String) (a b : Nat) : String := ⟨(s.data.drop a).take (b - a)⟩

/-- The validation loop of `_parse_ollama_response`: returns the accepted
chunks and the count of invalid ones.  A chunk is skipped (and counted
invalid) when `start_pos`/`end_pos` is missing or when
`start_pos < 0 or end_pos > len(transcript) or start_pos >= end_pos`. -/
def parseLoop (transcript : String) (segments : List Segment) :
    List RawChunk → Nat → List ChunkMetadata × Nat
  | [], _ => ([], 0)
  | rc :: rest, idx =>
    let r := parseLoop transcript segments rest (idx + 1)
    match rc.start_pos, rc.end_pos with
    | some sp, some ep =>
      if sp < 0 ∨ ep > (transcript.length : Int) ∨ sp ≥ ep then (r.1, r.2 + 1)
      else
        let s := sp.toNat
        let e := ep.toNat
        let ts := mapToTimestamps s e transcript segments
        ({ chunk_index := idx, text := pySlice transcript s e,
           topic_summary := rc.topic, keywords := some (rc.keywords.getD []),
           confidence := rc.confidence,
           start_time := ts.1, end_time := ts.2,
           start_char_pos := s, end_char_pos := e } :: r.1, r.2)
    | _, _ => (r.1, r.2 + 1)

/-- `_parse_ollama_response` after JSON decoding: any invalid chunk, or an
empty accepted list, aborts the whole parse (raising back to
`chunk_by_topics`); otherwise the accepted chunks are returned.  No
coverage condition is evaluated here. -/
def parse_ollama_response (raw : List RawChunk) (transcript : String)
    (segments : List Segment) : Option (List ChunkMetadata) :=
  let r := parseLoop transcript segments raw 0
  if r.2 > 0 then none
  else if r.1 = [] then none
  else some r.1

/-- Outcome of the LLM call and JSON decode: either a failure anywhere in
the HTTP/JSON pipeline (timeout, no JSON object, bad structure), or the
decoded `chunks` array. -/
inductive LLMOutcome where
  | failure : LLMOutcome
  | response : List RawChunk → LLMOutcome
deriving Repr, DecidableEq

/-- `OllamaChunker.chunk_by_topics`: parse the LLM outcome; any exception
(call failure or parse abort) falls back to sentence chunking.  The Bool
records whether the fallback produced the output. -/
def chunk_by_topics (settings : ChunkSettings) (transcript : String)
    (segments : List Segment) (outcome : LLMOutcome) : List ChunkMetadata × Bool :=
  match outcome with
  | .failure => (fallback_sentence_chunking settings transcript segments, true)
  | .response raw =>
    match parse_ollama_response raw transcript segments with
    | none => (fallback_sentence_chunking settings transcript segments, true)
    | some cs => (cs, false)

/-- Per-chunk validation predicate of step 5 of the spec's chunking
algorithm: integer positions present with
`0 ≤ start_pos < end_pos ≤ len(transcript)`. -/
def chunkValidB (rc : RawChunk) (transcript : String) : Bool :=
  match rc.start_pos, rc.end_pos with
  | some sp, some ep => decide (0 ≤ sp ∧ sp < ep ∧ ep ≤ (transcript.length : Int))
  | _, _ => false

/-! ### The coverage predicate of invariant K2 -/

/-- Adjacent chunks share a boundary exactly: each chunk ends where the
next starts. -/
def adjOk : List ChunkMetadata → Bool
  | [] => true
  | [_] => true
  | a :: b :: rest => decide (a.end_char_pos = b.start_char_pos) && adjOk (b :: rest)

/-- Coverage invariant K2 together with index density K1, as the spec
states it: at least one chunk, indices exactly `0..N-1`, ordered ranges
with `start_char ≤ end_char` that start at 0, end at the transcript
length, and meet exactly at shared boundaries (no gap, no overlap). -/
def tilesExactly (chunks : List ChunkMetadata) (totalLen : Nat) : Bool :=
  match chunks with
  | [] => false
  | c :: _ =>
    decide (chunks.map ChunkMetadata.chunk_index = List.range chunks.length) &&
    decide (c.start_char_pos = 0) &&
    (match chunks.getLast? with
     | some d => decide (d.end_char_pos = totalLen)
     | none => false) &&
    adjOk chunks &&
    chunks.all fun ck => decide (ck.start_char_pos ≤ ck.end_char_pos)

/-! ### Invariants of the sentence fallback loop -/

/-- Loop invariant of `_fallback_sentence_chunking`: the running index
equals the number of emitted chunks, whose indices are `0..N-1`. -/
def FbInv (st : FbState) : Prop :=
  st.chunk_idx = st.chunks.length ∧
  st.chunks.map ChunkMetadata.chunk_index = List.range st.chunks.length

/-- The chunk `_parse_ollama_response` produces for the two-character
transcript `ab` from an LLM chunk covering 0..2 (used as a concrete
accepted parse below). -/
def sampleParsedChunk : ChunkMetadata :=
  { chunk_index := 0, text := "ab", topic_summary := none, keywords := some [],
    confidence := none, start_time := none, end_time := none,
    start_char_pos := 0, end_char_pos := 2 }

/-! ### Topic assignment pipeline
Source: `TranscriptionService.assign_topics` (lines 291..359) and
`assign_topics_activity`
(app/workflows/transcribe/activities/topic_assignment.py). -/

/-- The insertion loop of `assign_topics`: walk the requested topic ids,
skipping links already present.  Pending inserts are visible to the
duplicate check within the same call (the session autoflushes before each
`select`), which the accumulator models. -/
def assign_topics_loop (existing : List (Nat × Nat)) (transcription_id : Nat) :
    List Nat → List (Nat × Nat) → List (Nat × Nat)
  | [], acc => acc
  | tid :: rest, acc =>
    if (transcription_id, tid) ∈ existing ∨ (transcription_id, tid) ∈ acc then
      assign_topics_loop existing transcription_id rest acc
    else assign_topics_loop existing transcription_id rest (acc ++ [(transcription_id, tid)])

/-- `TranscriptionService.assign_topics`: validate that every requested id
names an existing topic (the select returns distinct rows, so the length
comparison also rejects duplicate ids) and create the missing
`TranscriptionTopic` links; `none` models the raised `ValueError`.  The
result is the list of newly created `(transcription_id, topic_id)` links. -/
def assign_topics (topics : List TopicRow) (existing : List (Nat × Nat))
    (transcription_id : Nat) (topic_ids : List Nat) : Option (List (Nat × Nat)) :=
  let matched := topics.filter fun t => topic_ids.contains t.id
  if matched.length ≠ topic_ids.length then none
  else some (assign_topics_loop existing transcription_id topic_ids [])

/-- `assign_topics_activity` after the data loads: analyze the chunk
summaries (the LLM response being a parameter), map the returned names to
ids, and persist the assignments. -/
def assign_topics_activity_model (topics : List TopicRow) (existing : List (Nat × Nat))
    (transcription_id : Nat) (summaries : List String) (llmResponse : String) :
    Option (List (Nat × Nat)) :=
  let topic_names := analyze_topic_summaries_with_llm summaries llmResponse
    (topics.map TopicRow.name)
  let topic_ids := map_topics_to_ids topics topic_names
  assign_topics topics existing transcription_id topic_ids

/-! ### Audio file store
Source: app/services/audio_file_service.py. -/

/-- An `AudioFile` row, restricted to the fields the dedup and delete
paths read and write; the ffprobe metadata (mime type, duration) is an
external best-effort probe and is not tracked. -/
structure MediaRow where
  id : Nat
  user_id : String
  checksum : String
  file_path : String
  original_filename : String
  source_type : String
deriving Repr, DecidableEq

/-- The store's state: the `audio_files` table, the id sequence, the final
on-disk blobs and the temp-directory files. -/
structure StoreState where
  rows : List MediaRow
  next_id : Nat
  disk : List String
  temp : List String
deriving Repr, DecidableEq

/-- `AudioFileService.check_duplicate`: the row of this owner with this
checksum (`scalar_one_or_none`; unique under the dedup invariant). -/
def check_duplicate (rows : List MediaRow) (user_id checksum : String) : Option MediaRow :=
  rows.find? fun r => decide (r.user_id = user_id) && decide (r.checksum = checksum)

/-- Invariant U1: no owner has two rows with the same content hash. -/
def uniqueOwnerHash (rows : List MediaRow) : Prop :=
  rows.Pairwise fun r1 r2 => ¬(r1.user_id = r2.user_id ∧ r1.checksum = r2.checksum)

instance (rows : List MediaRow) : Decidable (uniqueOwnerHash rows) := by
  unfold uniqueOwnerHash
  infer_instance

/-- `AudioFileService.create_from_upload`: write the upload to a temp
path, hash it, and either return the existing duplicate row (deleting the
temp file) or move the temp file to its final path and insert a row.
SHA-256 and the date-partitioned path builder (`generate_file_path`, which
reads the clock) are parameters `sha` and `genPath`. -/
def create_from_upload (genPath : String → String → String → String)
    (sha : List Nat → String) (st : StoreState) (user_id filename : String)
    (content : List Nat) : MediaRow × Bool × StoreState :=
  let temp_path := "temp_" ++ user_id ++ "_" ++ filename
  let st1 : StoreState := { st with temp := temp_path :: st.temp }
  let checksum := sha content
  match check_duplicate st1.rows user_id checksum with
  | some existing_file =>
    (existing_file, true, { st1 with temp := st1.temp.erase temp_path })
  | none =>
    let final_path := genPath user_id filename checksum
    let row : MediaRow :=
      { id := st1.next_id, user_id := user_id, checksum := checksum,
        file_path := final_path, original_filename := filename, source_type := "upload" }
    (row, false,
      { rows := st1.rows ++ [row], next_id := st1.next_id + 1,
        disk := final_path :: st1.disk, temp := st1.temp.erase temp_path })

/-- An observable side effect of `delete_file`, in execution order. -/
inductive FsEffect where
  | unlink : String → FsEffect
  | dbDelete : Nat → FsEffect
deriving Repr, DecidableEq

/-- `AudioFileService.delete_file`: permission-checked delete returning
`(succeeded, remaining rows, effects in order)`.  The physical file is
removed first when it exists (errors there are swallowed), then the row is
deleted. -/
def delete_file (rows : List MediaRow) (disk : List String) (audio_file_id : Nat)
    (user_id : String) : Bool × List MediaRow × List FsEffect :=
  match rows.find? fun r => decide (r.id = audio_file_id) with
  | none => (false, rows, [])
  | some audio_file =>
    if audio_file.user_id ≠ user_id then (false, rows, [])
    else
      let fsEffects := if audio_file.file_path ∈ disk then
          [FsEffect.unlink audio_file.file_path] else []
      (true, rows.filter fun r => decide (r.id ≠ audio_file_id),
        fsEffects ++ [FsEffect.dbDelete audio_file_id])

/-- The ordering the C7 claim asserts: the database delete happens before
any filesystem unlink is attempted. -/
def dbDeleteFirst : List FsEffect → Bool
  | [] => true
  | FsEffect.dbDelete _ :: _ => true
  | FsEffect.unlink _ :: _ => false

/-! ### Transcription result writes
Source: `TranscriptionService.update_transcription_result` (lines 69..117)
and `transcribe_activity`
(app/workflows/transcribe/activities/transcribe.py, lines 84..111). -/

/-- A `Transcription` row, restricted to the fields these writes touch. -/
structure TranscriptionRec where
  transcript : String
  language : Option String
  avg_confidence : Option Rat
  segments : Option (List Segment)
  processing_time : Option Rat
  model_version : Option String
  status : String
  error_message : Option String
deriving Repr, DecidableEq

/-- `TranscriptionService.update_transcription_result`: overwrite the
result fields (segments only when provided) and set `status` to
`completed`, unconditionally. -/
def update_transcription_result (t : TranscriptionRec) (transcript language : String)
    (avg_confidence : Rat) (segments : Option (List Segment))
    (processing_time : Option Rat) (model_version : Option String) : TranscriptionRec :=
  { t with
    transcript := transcript, language := some language,
    avg_confidence := some avg_confidence,
    segments := match segments with | some s => some s | none => t.segments,
    processing_time := processing_time, model_version := model_version,
    status := "completed" }

/-- `TranscriptionService.mark_as_failed`. -/
def mark_as_failed (t : TranscriptionRec) (error_message : String) : TranscriptionRec :=
  { t with status := "failed", error_message := some error_message }

/-- The result dict `transcribe_audio` returns (Whisper is external):
`text` is mandatory; `segments`, `language` and `processing_time` are read
with defaults.  A segment's `confidence` key is carried on `Segment`. -/
structure WhisperResult where
  text : String
  segments : List Segment := []
  language : Option String := none
  processing_time : Option Rat := none

/-- The successful tail of `transcribe_activity`: average the segment
confidences that are present (`avg if avg else 0.0` collapses a falsy
average to 0.0) and write the result through
`update_transcription_result`. -/
def transcribe_activity_success (t : TranscriptionRec) (result : WhisperResult) :
    TranscriptionRec :=
  let transcript_text := result.text
  let segments := result.segments
  let language := result.language.getD "unknown"
  let confidences := segments.filterMap Segment.confidence
  let avg_confidence : Option Rat :=
    if confidences ≠ [] then some (confidences.sum / confidences.length) else none
  update_transcription_result t transcript_text language
    (match avg_confidence with
     | some v => if v ≠ 0 then v else 0
     | none => 0)
    (some segments) result.processing_time none

/-- Invariant T1's segment condition: `start_s` non-decreasing down the
list (absent timestamps read as 0.0). -/
def segmentsMonotone : List Segment → Bool
  | [] => true
  | [_] => true
  | a :: b :: rest => decide (a.start.getD 0 ≤ b.start.getD 0) && segmentsMonotone (b :: rest)

/-- A fresh pending transcription row, as the API inserts it. -/
def pendingTranscription : TranscriptionRec :=
  { transcript := "", language := none, avg_confidence := none, segments := none,
    processing_time := none, model_version := none, status := "pending",
    error_message := none }

/-! ### Embedding service
Source: app/services/embedding_service.py and
app/workflows/transcribe/activities/embed.py. -/

/-- An embedding vector; the sentence encoder itself is external and is a
parameter `enc` below. -/
abbrev Vec := List Rat

/-- The zero vector returned for empty text (384 is the encoder's fixed
output dimension). -/
def zeroVec384 : Vec := List.replicate 384 0

/-- The 5000-character truncation both embedding entry points apply. -/
def pyTruncate5000 (text : String) : String :=
  if text.length > 5000 then ⟨text.data.take 5000⟩ else text

/-- `generate_embedding` (single text): empty or whitespace-only text
short-circuits to the zero vector without consulting the encoder;
otherwise the truncated text is encoded. -/
def generate_embedding (enc : String → Vec) (text : String) : Vec :=
  if text = "" ∨ pyStripWs text = "" then zeroVec384
  else enc (pyTruncate5000 text)

/-- `generate_embeddings_batch`: truncate each text and encode the batch
(the external `model.encode` maps the list elementwise); an empty input
list returns `[]`.  There is no empty-text branch on this path. -/
def generate_embeddings_batch (enc : String → Vec) (texts : List String) : List Vec :=
  if texts = [] then []
  else (texts.map pyTruncate5000).map enc

/-- A concrete encoder used to instantiate the embedding theorems. -/
def constEnc : String → Vec := fun _ => List.replicate 384 0

/-! ### Job status writes of the workflow activities
Sources: transcribe.py (lines 55..75 and 138..159), embed.py (lines
103..130), download.py (lines 61..71 and 169..183).  Each activity's
writes to its `Job` row are listed in program order; the workflow runtime
re-runs a failed attempt up to the configured retry limit. -/

inductive JobStatus where
  | pending
  | processing
  | completed
  | failed
deriving Repr, DecidableEq

/-- Job-row status writes of one `transcribe_activity` attempt: it writes
`processing` on entry and `failed` in its exception handler; a successful
attempt leaves the job in `processing` for the later stages. -/
def transcribe_attempt_job_writes (succeeds : Bool) : List JobStatus :=
  [JobStatus.processing] ++ (if succeeds then [] else [JobStatus.failed])

/-- Job-row status writes of one `embed_chunks_activity` attempt:
`completed` after the vectors are stored, `failed` in its exception
handler. -/
def embed_attempt_job_writes (succeeds : Bool) : List JobStatus :=
  if succeeds then [JobStatus.completed] else [JobStatus.failed]

/-- Job-row status writes of one `download_audio_activity` attempt. -/
def download_attempt_job_writes (succeeds : Bool) : List JobStatus :=
  [JobStatus.processing] ++ (if succeeds then [JobStatus.completed] else [JobStatus.failed])

/-- The job-row write trace of a sequence of attempts of one activity
(the runtime retries an attempt only after the previous one failed). -/
def retry_job_writes (attempt : Bool → List JobStatus) (outcomes : List Bool) :
    List JobStatus :=
  (outcomes.map attempt).flatten

def isTerminal (s : JobStatus) : Bool :=
  decide (s = JobStatus.completed) || decide (s = JobStatus.failed)

/-- The terminality property of spec invariant 5: once a terminal status
is written, nothing further is written to the row. -/
def no_write_after_terminal : List JobStatus → Bool
  | [] => true
  | s :: rest => if isTerminal s then decide (rest = []) else no_write_after_terminal rest

/-- The row a fresh (non-duplicate) ingest inserts. -/
def uploadedRow (genPath : String → String → String → String)
    (sha : List Nat → String) (st : StoreState) (user_id f : String)
    (content : List Nat) : MediaRow :=
  { id := st.next_id,
    user_id := user_id,
    checksum := sha content,
    file_path := genPath user_id f (sha content),
    original_filename := f,
    source_type := "upload" }

/-! ### Concrete sample data used by the theorems below -/

/-- A concrete stored audio file used to exhibit the delete ordering. -/
def sampleMediaRow : MediaRow :=
  { id := 1, user_id := "u1", checksum := "h0", file_path := "p0",
    original_filename := "a.mp3", source_type := "upload" }

/-- An encoder returning all-ones vectors, to separate the batch path from
the zero-vector rule. -/
def onesEnc : String → Vec := fun _ => List.replicate 384 1

/-! ### Association-list lookup lemmas shared by the classifier proofs -/

/-- Search direction is irrelevant when at most one element satisfies the
predicate. -/
lemma find?_reverse_of_unique {α : Type} (p : α → Bool) :
    ∀ l : List α, (l.Pairwise fun x y => ¬(p x = true ∧ p y = true)) →
      l.reverse.find? p = l.find? p := by
  intro l
  induction l with
  | nil => intro _; rfl
  | cons x xs ih =>
    intro h
    rcases List.pairwise_cons.mp h with ⟨h1, h2⟩
    rw [List.reverse_cons, List.find?_append, ih h2]
    cases hx : p x with
    | true =>
      have hxs : xs.find? p = none :=
        List.find?_eq_none.mpr fun b hb hpb => h1 b hb ⟨hx, hpb⟩
      simp [hxs, List.find?, hx]
    | false => simp [List.find?, hx]

/-- A member satisfying the predicate is what `find?` returns, when at most
one element satisfies it. -/
lemma find?_of_mem_unique {α : Type} (p : α → Bool) (a : α) :
    ∀ l : List α, (l.Pairwise fun x y => ¬(p x = true ∧ p y = true)) →
      a ∈ l → p a = true → l.find? p = some a := by
  intro l
  induction l with
  | nil => intro _ hmem _; cases hmem
  | cons x xs ih =>
    intro h hmem hpa
    rcases List.pairwise_cons.mp h with ⟨h1, h2⟩
    rcases List.mem_cons.mp hmem with rfl | hmem2
    · rw [List.find?_cons_of_pos _ hpa]
    · cases hx : p x with
      | true => exact absurd ⟨hx, hpa⟩ (h1 a hmem2)
      | false => rw [List.find?_cons_of_neg _ (by simp [hx])]; exact ih h2 hmem2 hpa

/-- `find?` with a key-equality predicate returns `some a` exactly for the
member with that key, when the keys are distinct. -/
lemma find?_key_iff {α : Type} (keyf : α → String) (k : String) (a : α)
    (l : List α) (hnd : (l.map keyf).Nodup) :
    l.find? (fun x => decide (keyf x = k)) = some a ↔ a ∈ l ∧ keyf a = k := by
  have hpw : l.Pairwise fun x y =>
      ¬((decide (keyf x = k)) = true ∧ (decide (keyf y = k)) = true) := by
    refine (List.pairwise_map.mp hnd).imp ?_
    intro x y hne hc
    rcases hc with ⟨hx, hy⟩
    exact hne (by rw [of_decide_eq_true hx, of_decide_eq_true hy])
  constructor
  · intro hf
    have hp := List.find?_some hf
    exact ⟨List.mem_of_find?_eq_some hf, of_decide_eq_true (by simpa using hp)⟩
  · rintro ⟨hmem, hk⟩
    exact find?_of_mem_unique _ a l hpw hmem (decide_eq_true hk)

/-- A Python dict built from a list with distinct keys behaves as a
first-match association-list lookup. -/
lemma pyDictGet_map_eq {α β : Type} (keyf : α → String) (valf : α → β) (k : String)
    (l : List α) (hnd : (l.map keyf).Nodup) :
    pyDictGet (l.map fun a => (keyf a, valf a)) k
      = (l.find? fun a => decide (keyf a = k)).map valf := by
  unfold pyDictGet
  have hpw : (l.map fun a => (keyf a, valf a)).Pairwise
      (fun e1 e2 : String × β => ¬((decide (e1.1 = k)) = true ∧ (decide (e2.1 = k)) = true)) := by
    rw [List.pairwise_map]
    refine (List.pairwise_map.mp hnd).imp ?_
    intro x y hne hc
    rcases hc with ⟨hx, hy⟩
    exact hne (by simpa using (of_decide_eq_true hx).trans (of_decide_eq_true hy).symm)
  rw [find?_reverse_of_unique _ _ hpw, List.find?_map]
  simp only [Option.map_map]
  rfl

/-- The lookup through the `canonical_lower` dict of the classifier is a
forward search of the canonical list, when lowered names are distinct. -/
lemma pyDictGet_lower_eq (canonical : List String) (k : String)
    (hnd : (canonical.map pyLower).Nodup) :
    pyDictGet (canonical.map fun m => (pyLower m, m)) k
      = canonical.find? fun m => decide (pyLower m = k) := by
  have h := pyDictGet_map_eq pyLower id k canonical hnd
  simpa using h

/-! ### C9 and C10 theorems -/

/-- C9: parsing the topic classifier's LLM response is two-phase.  Phase
one collects every canonical name occurring case-insensitively in the
response (the semantics of the optionally quoted, escaped, IGNORECASE
pattern); only if that set is empty does phase two split on commas, strip
whitespace and outer quotes, and keep tokens equal to a canonical name
case-insensitively.  The result holds each matched name exactly once, in
its canonical spelling. -/
theorem parse_topic_response_two_phase (response : String) (canonical : List String)
    (hnd : (canonical.map pyLower).Nodup) :
    (parse_topic_response response canonical).Nodup ∧
    ((∃ n ∈ canonical, regexNameMatches response n = true) →
      ∀ n, n ∈ parse_topic_response response canonical ↔
        n ∈ canonical ∧ regexNameMatches response n = true) ∧
    ((∀ n ∈ canonical, regexNameMatches response n = false) →
      ∀ n, n ∈ parse_topic_response response canonical ↔
        n ∈ canonical ∧ ∃ t ∈ comma_tokens response, pyLower t = pyLower n) := by
  refine ⟨?_, ?_, ?_⟩
  · simp only [parse_topic_response]
    by_cases hempty : topicRegexPhase response canonical = []
    · rw [if_pos hempty]
      simp only [commaFallbackPhase]
      exact List.nodup_dedup _
    · rw [if_neg hempty]
      simp only [topicRegexPhase]
      exact List.nodup_dedup _
  · rintro ⟨n0, hn0, hm0⟩ n
    have hne : topicRegexPhase response canonical ≠ [] := by
      intro hnil
      have hn0mem : n0 ∈ topicRegexPhase response canonical := by
        simp only [topicRegexPhase]
        rw [List.mem_dedup, List.mem_filter]
        exact ⟨hn0, hm0⟩
      rw [hnil] at hn0mem
      cases hn0mem
    simp only [parse_topic_response]
    rw [if_neg hne]
    simp only [topicRegexPhase]
    rw [List.mem_dedup, List.mem_filter]
  · intro hall n
    have hnil : topicRegexPhase response canonical = [] := by
      simp only [topicRegexPhase]
      rw [List.dedup_eq_nil, List.filter_eq_nil_iff]
      intro a ha
      simp [hall a ha]
    simp only [parse_topic_response]
    rw [if_pos hnil]
    simp only [commaFallbackPhase]
    rw [List.mem_dedup, List.mem_filterMap]
    constructor
    · rintro ⟨t, ht, hget⟩
      rw [pyDictGet_lower_eq canonical (pyLower t) hnd] at hget
      rcases (find?_key_iff pyLower (pyLower t) n canonical hnd).mp hget with ⟨hmem, hk⟩
      exact ⟨hmem, t, ht, hk.symm⟩
    · rintro ⟨hmem, t, ht, hk⟩
      refine ⟨t, ht, ?_⟩
      rw [pyDictGet_lower_eq canonical (pyLower t) hnd]
      exact (find?_key_iff pyLower (pyLower t) n canonical hnd).mpr ⟨hmem, hk.symm⟩

/-- C9 witness: the theorem applied at a concrete response and canonical
list. -/
theorem parse_topic_response_two_phase_witness :
    ((["Art", "Science"].map pyLower).Nodup) ∧
    ((parse_topic_response "art, music" ["Art", "Science"]).Nodup ∧
    ((∃ n ∈ ["Art", "Science"], regexNameMatches "art, music" n = true) →
      ∀ n, n ∈ parse_topic_response "art, music" ["Art", "Science"] ↔
        n ∈ ["Art", "Science"] ∧ regexNameMatches "art, music" n = true) ∧
    ((∀ n ∈ ["Art", "Science"], regexNameMatches "art, music" n = false) →
      ∀ n, n ∈ parse_topic_response "art, music" ["Art", "Science"] ↔
        n ∈ ["Art", "Science"] ∧ ∃ t ∈ comma_tokens "art, music",
          pyLower t = pyLower n)) :=
  ⟨by decide, parse_topic_response_two_phase "art, music" ["Art", "Science"] (by decide)⟩

/-- C10: `map_topics_to_ids` is total and equals, element for element and in
input order without deduplication, the claim's resolver: a case-insensitive
name match yields that topic's id, a miss yields the Unknown topic's id
when an Unknown topic exists and is dropped otherwise. -/
theorem map_topics_to_ids_spec (topics : List TopicRow) (names : List String)
    (hnd : (topics.map fun t => pyLower t.name).Nodup) :
    map_topics_to_ids topics names = names.filterMap (claimResolve topics) := by
  unfold map_topics_to_ids
  by_cases hnil : names = []
  · simp [hnil]
  · simp only [if_neg hnil]
    apply List.filterMap_congr
    intro name _
    unfold claimResolve topicMapGet
    rw [pyDictGet_map_eq (fun t => pyLower t.name) TopicRow.id (pyLower name) topics hnd]
    rw [pyDictGet_map_eq (fun t => pyLower t.name) TopicRow.id "unknown" topics hnd]
    cases topics.find? fun t => decide (pyLower t.name = pyLower name) with
    | none => rfl
    | some t => rfl

/-- C10 witness: the theorem applied at a concrete topic table and name
list, with a repeated unmatched name mapping twice to Unknown's id. -/
theorem map_topics_to_ids_spec_witness :
    (([⟨1, "Unknown"⟩, ⟨2, "Art"⟩] : List TopicRow).map (fun t => pyLower t.name)).Nodup ∧
    map_topics_to_ids [⟨1, "Unknown"⟩, ⟨2, "Art"⟩] ["art", "Jazz", "Jazz"]
      = (["art", "Jazz", "Jazz"].filterMap (claimResolve [⟨1, "Unknown"⟩, ⟨2, "Art"⟩])) :=
  ⟨by decide, map_topics_to_ids_spec [⟨1, "Unknown"⟩, ⟨2, "Art"⟩] ["art", "Jazz", "Jazz"]
    (by decide)⟩

/-! ### Lemmas on the sentence-fallback loop -/

lemma fbStep_inv (ts os : Nat) (tr : String) (segs : List Segment) (st : FbState)
    (s : String) (h : FbInv st) : FbInv (fbStep ts os tr segs st s) := by
  unfold fbStep
  by_cases hc : st.current_length + s.length > ts ∧ st.current_chunk ≠ []
  · rw [if_pos hc]
    refine ⟨?_, ?_⟩
    · simp [h.1]
    · simp [h.1, h.2, List.range_succ]
  · rw [if_neg hc]
    exact h

lemma foldl_fbStep_inv (ts os : Nat) (tr : String) (segs : List Segment) :
    ∀ (l : List String) (st : FbState), FbInv st →
      FbInv (l.foldl (fbStep ts os tr segs) st) := by
  intro l
  induction l with
  | nil => intro st h; exact h
  | cons a rest ih => intro st h; exact ih _ (fbStep_inv ts os tr segs st a h)

lemma fbStep_current_ne (ts os : Nat) (tr : String) (segs : List Segment)
    (st : FbState) (s : String) : (fbStep ts os tr segs st s).current_chunk ≠ [] := by
  unfold fbStep
  by_cases hc : st.current_length + s.length > ts ∧ st.current_chunk ≠ []
  · rw [if_pos hc]; simp
  · rw [if_neg hc]; simp

lemma foldl_fbStep_current_ne (ts os : Nat) (tr : String) (segs : List Segment) :
    ∀ (l : List String) (st : FbState), l ≠ [] →
      (l.foldl (fbStep ts os tr segs) st).current_chunk ≠ [] := by
  intro l
  induction l with
  | nil => intro st h; cases h rfl
  | cons a rest ih =>
    intro st _
    cases hr : rest with
    | nil => simpa using fbStep_current_ne ts os tr segs st a
    | cons b tl =>
      have := ih (fbStep ts os tr segs st a) (by simp [hr])
      simpa [hr] using this

lemma splitSentencesAux_ne_nil : ∀ (cs acc : List Char) (skipping : Bool),
    splitSentencesAux cs acc skipping ≠ [] := by
  intro cs
  induction cs with
  | nil => intro acc skipping; simp [splitSentencesAux]
  | cons c rest ih =>
    intro acc skipping
    unfold splitSentencesAux
    by_cases h1 : (skipping && isPyWs c) = true
    · rw [if_pos h1]; exact ih acc true
    · rw [if_neg h1]
      by_cases h2 : (isPyWs c && isSentenceBoundary acc) = true
      · rw [if_pos h2]; simp
      · rw [if_neg h2]; exact ih (c :: acc) false

lemma splitSentences_ne_nil (t : String) : splitSentences t ≠ [] := by
  unfold splitSentences
  intro h
  exact splitSentencesAux_ne_nil t.data [] false (List.map_eq_nil_iff.mp h)

/-! ### Density of the parsed LLM chunks -/

lemma parseLoop_inv_pos (transcript : String) (segments : List Segment) :
    ∀ (raw : List RawChunk) (idx : Nat) (rc : RawChunk), rc ∈ raw →
      chunkValidB rc transcript = false →
      0 < (parseLoop transcript segments raw idx).2 := by
  intro raw
  induction raw with
  | nil => intro idx rc h; cases h
  | cons head rest ih =>
    intro idx rc hmem hval
    rcases List.mem_cons.mp hmem with rfl | hmem2
    · unfold parseLoop
      cases hsp : rc.start_pos with
      | none => simp [hsp]
      | some sp =>
        cases hep : rc.end_pos with
        | none => simp [hsp, hep]
        | some ep =>
          have hcond : sp < 0 ∨ ep > (transcript.length : Int) ∨ sp ≥ ep := by
            unfold chunkValidB at hval
            rw [hsp, hep] at hval
            simp only [decide_eq_false_iff_not] at hval
            omega
          simp only [hsp, hep, if_pos hcond]
          omega
    · have h2 := ih (idx + 1) rc hmem2 hval
      unfold parseLoop
      cases hsp : head.start_pos with
      | none => simp only [hsp]; omega
      | some sp =>
        cases hep : head.end_pos with
        | none => simp only [hsp, hep]; omega
        | some ep =>
          by_cases hcond : sp < 0 ∨ ep > (transcript.length : Int) ∨ sp ≥ ep
          · simp only [hsp, hep, if_pos hcond]; omega
          · simp only [hsp, hep, if_neg hcond]; omega

lemma parseLoop_bounds (transcript : String) (segments : List Segment) :
    ∀ (raw : List RawChunk) (idx : Nat) (c : ChunkMetadata),
      c ∈ (parseLoop transcript segments raw idx).1 →
      c.start_char_pos < c.end_char_pos ∧ c.end_char_pos ≤ transcript.length := by
  intro raw
  induction raw with
  | nil => intro idx c h; cases h
  | cons head rest ih =>
    intro idx c hmem
    unfold parseLoop at hmem
    cases hsp : head.start_pos with
    | none => simp only [hsp] at hmem; exact ih (idx + 1) c hmem
    | some sp =>
      cases hep : head.end_pos with
      | none => simp only [hsp, hep] at hmem; exact ih (idx + 1) c hmem
      | some ep =>
        by_cases hcond : sp < 0 ∨ ep > (transcript.length : Int) ∨ sp ≥ ep
        · simp only [hsp, hep, if_pos hcond] at hmem
          exact ih (idx + 1) c hmem
        · simp only [hsp, hep, if_neg hcond, List.mem_cons] at hmem
          rcases hmem with rfl | hmem2
          · refine ⟨?_, ?_⟩ <;> (dsimp only; omega)
          · exact ih (idx + 1) c hmem2

lemma parseLoop_dense (transcript : String) (segments : List Segment) :
    ∀ (raw : List RawChunk) (idx : Nat),
      (parseLoop transcript segments raw idx).2 = 0 →
      (parseLoop transcript segments raw idx).1.map ChunkMetadata.chunk_index
        = List.range' idx (parseLoop transcript segments raw idx).1.length := by
  intro raw
  induction raw with
  | nil => intro idx _; rfl
  | cons head rest ih =>
    intro idx h0
    unfold parseLoop at h0 ⊢
    cases hsp : head.start_pos with
    | none => simp only [hsp] at h0; omega
    | some sp =>
      cases hep : head.end_pos with
      | none => simp only [hsp, hep] at h0; omega
      | some ep =>
        by_cases hcond : sp < 0 ∨ ep > (transcript.length : Int) ∨ sp ≥ ep
        · simp only [hsp, hep, if_pos hcond] at h0; omega
        · simp only [hsp, hep, if_neg hcond] at h0 ⊢
          have hr := ih (idx + 1) h0
          simp only [List.map_cons, List.length_cons, hr]
          rw [List.range'_succ]

/-! ### C1 and C2 theorems -/

/-- C1 counterexample: on the transcript consisting of the two sentences
second-separated by a double space (six characters in all), the sentence
fallback joins the sentences with a single space and emits one chunk whose
range is 0..5, leaving character 5 of the 6-character transcript
uncovered; the chunk ranges do not tile the transcript. -/
theorem sentence_fallback_coverage_cex :
    fallback_sentence_chunking {} "a.  b." [] =
      [{ chunk_index := 0, text := "a. b.", topic_summary := none, keywords := none,
         confidence := none, start_time := none, end_time := none,
         start_char_pos := 0, end_char_pos := 5 }] ∧
    "a.  b.".length = 6 ∧
    tilesExactly (fallback_sentence_chunking {} "a.  b." []) "a.  b.".length = false := by
  refine ⟨by decide, by decide, by decide⟩

/-- C1 (amended): every strategy emits at least one chunk with dense
indices `0..N-1`; the `single` strategy moreover tiles `[0, len)` exactly,
and an accepted LLM result has dense indices as well.  (Exact tiling does
not hold for the sentence fallback, and is not checked for the LLM result;
see the counterexamples.) -/
theorem chunk_strategies_dense_and_single_tiles (settings : ChunkSettings)
    (transcript : String) (segments : List Segment) :
    fallback_sentence_chunking settings transcript segments ≠ [] ∧
    ((fallback_sentence_chunking settings transcript segments).map ChunkMetadata.chunk_index
      = List.range (fallback_sentence_chunking settings transcript segments).length) ∧
    tilesExactly (create_single_chunk transcript segments) transcript.length = true ∧
    (∀ (raw : List RawChunk) (cs : List ChunkMetadata),
      parse_ollama_response raw transcript segments = some cs →
      cs.map ChunkMetadata.chunk_index = List.range cs.length) := by
  have hsent := splitSentences_ne_nil transcript
  have hcur := foldl_fbStep_current_ne (settings.chunk_max_tokens * 4)
    (settings.chunk_overlap_tokens * 4) transcript segments (splitSentences transcript)
    { chunks := [], current_chunk := [], current_length := 0, chunk_idx := 0, char_pos := 0 }
    hsent
  have hinv := foldl_fbStep_inv (settings.chunk_max_tokens * 4)
    (settings.chunk_overlap_tokens * 4) transcript segments (splitSentences transcript)
    { chunks := [], current_chunk := [], current_length := 0, chunk_idx := 0, char_pos := 0 }
    ⟨rfl, rfl⟩
  refine ⟨?_, ?_, ?_, ?_⟩
  · unfold fallback_sentence_chunking
    rw [if_pos hcur]
    simp
  · unfold fallback_sentence_chunking
    rw [if_pos hcur]
    simp [hinv.1, hinv.2, List.range_succ]
  · simp [create_single_chunk, tilesExactly, adjOk]
    decide
  · intro raw cs hcs
    simp only [parse_ollama_response] at hcs
    by_cases h2 : (parseLoop transcript segments raw 0).2 > 0
    · rw [if_pos h2] at hcs; cases hcs
    · rw [if_neg h2] at hcs
      by_cases h1 : (parseLoop transcript segments raw 0).1 = []
      · rw [if_pos h1] at hcs; cases hcs
      · rw [if_neg h1] at hcs
        have hz : (parseLoop transcript segments raw 0).2 = 0 := by omega
        have hd := parseLoop_dense transcript segments raw 0 hz
        rw [Option.some_inj] at hcs
        rw [← hcs, hd, List.range_eq_range']

/-- C1 witness: the amended theorem applied to a concrete LLM result,
discharging the accepted-parse hypothesis at an explicit input. -/
theorem chunk_strategies_dense_witness :
    parse_ollama_response [⟨some 0, some 2, none, none, none⟩] "ab" []
      = some [sampleParsedChunk] ∧
    [sampleParsedChunk].map ChunkMetadata.chunk_index
      = List.range [sampleParsedChunk].length :=
  ⟨by decide,
   (chunk_strategies_dense_and_single_tiles {} "ab" []).2.2.2
     [⟨some 0, some 2, none, none, none⟩] [sampleParsedChunk] (by decide)⟩

/-- C2 counterexample: an LLM response whose single chunk covers 5..10 of a
12-character transcript passes per-chunk validation, so
`chunk_by_topics` keeps the LLM result (no fallback) even though the
coverage invariant is violated. -/
theorem llm_coverage_not_checked_cex :
    (chunk_by_topics {} "abcdefghijkl" []
      (LLMOutcome.response [⟨some 5, some 10, none, none, none⟩])).2 = false ∧
    tilesExactly (chunk_by_topics {} "abcdefghijkl" []
      (LLMOutcome.response [⟨some 5, some 10, none, none, none⟩])).1
      "abcdefghijkl".length = false := by
  refine ⟨by decide, by decide⟩

/-- C2 (amended): the LLM result is all-or-nothing with respect to
per-chunk validation: if any returned chunk is missing integer positions
or violates the position bounds, the whole result is abandoned and the
sentence fallback produces the output; an accepted result consists only of
chunks with valid position bounds.  (No chunk-set coverage condition is
checked; see the counterexample.) -/
theorem llm_all_or_nothing (settings : ChunkSettings) (transcript : String)
    (segments : List Segment) (raw : List RawChunk) :
    ((∃ rc ∈ raw, chunkValidB rc transcript = false) →
      chunk_by_topics settings transcript segments (LLMOutcome.response raw)
        = (fallback_sentence_chunking settings transcript segments, true)) ∧
    (∀ cs, parse_ollama_response raw transcript segments = some cs →
      ∀ c ∈ cs, c.start_char_pos < c.end_char_pos ∧
        c.end_char_pos ≤ transcript.length) := by
  constructor
  · rintro ⟨rc, hmem, hval⟩
    have hpos := parseLoop_inv_pos transcript segments raw 0 rc hmem hval
    unfold chunk_by_topics
    simp only [parse_ollama_response]
    rw [if_pos hpos]
  · intro cs hcs c hc
    simp only [parse_ollama_response] at hcs
    by_cases h2 : (parseLoop transcript segments raw 0).2 > 0
    · rw [if_pos h2] at hcs; cases hcs
    · rw [if_neg h2] at hcs
      by_cases h1 : (parseLoop transcript segments raw 0).1 = []
      · rw [if_pos h1] at hcs; cases hcs
      · rw [if_neg h1] at hcs
        rw [Option.some_inj] at hcs
        exact parseLoop_bounds transcript segments raw 0 c (by rw [hcs]; exact hc)

/-- C2 witness: a chunk with missing positions forces the sentence
fallback, via the amended theorem at a concrete input. -/
theorem llm_all_or_nothing_witness :
    chunk_by_topics {} "Hi. Bye." [] (LLMOutcome.response [⟨none, none, none, none, none⟩])
      = (fallback_sentence_chunking {} "Hi. Bye." [], true) :=
  (llm_all_or_nothing {} "Hi. Bye." [] [⟨none, none, none, none, none⟩]).1
    ⟨⟨none, none, none, none, none⟩, by decide, by decide⟩

/-! ### C3 theorems -/

/-- C3 counterexample: with only the Unknown topic in the taxonomy and no
chunk topic summaries, the topic-assignment pipeline persists no
`TranscriptionTopic` row at all — not the single Unknown assignment the
claim requires. -/
theorem empty_summaries_unknown_row_cex :
    assign_topics_activity_model [⟨1, "Unknown"⟩] [] 7 [] "anything" = some [] ∧
    some ([] : List (Nat × Nat)) ≠ some [(7, 1)] :=
  ⟨by decide, by decide⟩

/-- C3 (amended): when the transcription's chunks contain no non-empty
topic summaries, `analyze_topic_summaries_with_llm` returns no names
without consulting the LLM, the id mapping returns no ids, and zero
`TranscriptionTopic` rows are persisted; the Unknown fallback applies only
to non-matching names during id mapping. -/
theorem empty_summaries_assigns_nothing (topics : List TopicRow)
    (existing : List (Nat × Nat)) (transcription_id : Nat) (response : String) :
    assign_topics_activity_model topics existing transcription_id [] response
      = some [] := by
  simp [assign_topics_activity_model, analyze_topic_summaries_with_llm,
    map_topics_to_ids, assign_topics, assign_topics_loop]

/-! ### C4 theorems -/

/-- A duplicate hit returns the existing row, removes the temp copy and
leaves the state as it was. -/
lemma create_from_upload_duplicate (genPath : String → String → String → String)
    (sha : List Nat → String) (st : StoreState) (user_id f : String)
    (content : List Nat) (r : MediaRow)
    (hdup : check_duplicate st.rows user_id (sha content) = some r) :
    create_from_upload genPath sha st user_id f content = (r, true, st) := by
  dsimp only [create_from_upload]
  rw [hdup]
  simp [List.erase_cons_head]

/-- A miss stages, hashes, moves the blob to its final path and appends a
fresh row. -/
lemma create_from_upload_new (genPath : String → String → String → String)
    (sha : List Nat → String) (st : StoreState) (user_id f : String)
    (content : List Nat)
    (hnone : check_duplicate st.rows user_id (sha content) = none) :
    create_from_upload genPath sha st user_id f content =
      (uploadedRow genPath sha st user_id f content, false,
       { rows := st.rows ++ [uploadedRow genPath sha st user_id f content],
         next_id := st.next_id + 1,
         disk := genPath user_id f (sha content) :: st.disk,
         temp := st.temp }) := by
  dsimp only [create_from_upload, uploadedRow]
  rw [hnone]
  simp [List.erase_cons_head]

/-- C4: ingesting the same bytes a second time for the same owner returns
the row created by the first ingest with `is_duplicate = true`, changes
neither the table nor the disk nor the temp directory, and the per-owner
content-hash uniqueness invariant is preserved by the first ingest. -/
theorem upload_dedup_spec (genPath : String → String → String → String)
    (sha : List Nat → String) (st : StoreState) (user_id f1 f2 : String)
    (content : List Nat)
    (hnodup : check_duplicate st.rows user_id (sha content) = none)
    (hinv : uniqueOwnerHash st.rows) :
    (create_from_upload genPath sha st user_id f1 content).2.1 = false ∧
    create_from_upload genPath sha
        ((create_from_upload genPath sha st user_id f1 content).2.2) user_id f2 content
      = ((create_from_upload genPath sha st user_id f1 content).1, true,
         (create_from_upload genPath sha st user_id f1 content).2.2) ∧
    uniqueOwnerHash ((create_from_upload genPath sha st user_id f1 content).2.2).rows := by
  rw [create_from_upload_new genPath sha st user_id f1 content hnodup]
  have hfound : check_duplicate
      (st.rows ++ [uploadedRow genPath sha st user_id f1 content]) user_id (sha content)
      = some (uploadedRow genPath sha st user_id f1 content) := by
    unfold check_duplicate at hnodup ⊢
    rw [List.find?_append, hnodup]
    simp [uploadedRow]
  refine ⟨rfl, ?_, ?_⟩
  · rw [create_from_upload_duplicate genPath sha _ user_id f2 content _ hfound]
  · unfold uniqueOwnerHash
    rw [List.pairwise_append]
    refine ⟨hinv, by simp, ?_⟩
    intro a ha b hb
    simp only [List.mem_singleton] at hb
    subst hb
    unfold check_duplicate at hnodup
    have hana := List.find?_eq_none.mp hnodup a ha
    simp only [Bool.and_eq_true, decide_eq_true_eq] at hana
    simp only [uploadedRow]
    intro hc
    exact hana ⟨hc.1, hc.2⟩

/-- C4 witness: the theorem at a concrete store, hash function and path
builder. -/
theorem upload_dedup_spec_witness :
    check_duplicate (([] : List MediaRow)) "u1" ((fun _ => "h0") ([1, 2, 3] : List Nat)) = none ∧
    uniqueOwnerHash ([] : List MediaRow) ∧
    ((create_from_upload (fun u f c => u ++ "/" ++ c ++ "_" ++ f) (fun _ => "h0")
        ⟨[], 0, [], []⟩ "u1" "a.mp3" [1, 2, 3]).2.1 = false ∧
     create_from_upload (fun u f c => u ++ "/" ++ c ++ "_" ++ f) (fun _ => "h0")
        ((create_from_upload (fun u f c => u ++ "/" ++ c ++ "_" ++ f) (fun _ => "h0")
          ⟨[], 0, [], []⟩ "u1" "a.mp3" [1, 2, 3]).2.2) "u1" "b.mp3" [1, 2, 3]
      = ((create_from_upload (fun u f c => u ++ "/" ++ c ++ "_" ++ f) (fun _ => "h0")
          ⟨[], 0, [], []⟩ "u1" "a.mp3" [1, 2, 3]).1, true,
         (create_from_upload (fun u f c => u ++ "/" ++ c ++ "_" ++ f) (fun _ => "h0")
          ⟨[], 0, [], []⟩ "u1" "a.mp3" [1, 2, 3]).2.2) ∧
     uniqueOwnerHash ((create_from_upload (fun u f c => u ++ "/" ++ c ++ "_" ++ f)
        (fun _ => "h0") ⟨[], 0, [], []⟩ "u1" "a.mp3" [1, 2, 3]).2.2).rows) :=
  ⟨by decide, by decide,
   upload_dedup_spec (fun u f c => u ++ "/" ++ c ++ "_" ++ f) (fun _ => "h0")
     ⟨[], 0, [], []⟩ "u1" "a.mp3" "b.mp3" [1, 2, 3] (by decide) (by decide)⟩

/-! ### C7 theorems -/

/-- C7 counterexample: deleting an existing owner-matched file whose blob
is on disk attempts the filesystem unlink before the database delete — the
opposite of the claimed ordering. -/
theorem delete_order_cex :
    delete_file [sampleMediaRow] ["p0"] 1 "u1"
      = (true, [], [FsEffect.unlink "p0", FsEffect.dbDelete 1]) ∧
    dbDeleteFirst (delete_file [sampleMediaRow] ["p0"] 1 "u1").2.2 = false :=
  ⟨by decide, by decide⟩

/-- C7 (amended): for an existing owner-matched media file the delete
succeeds and removes the row; the filesystem unlink is attempted first
when the blob exists (with unlink errors swallowed), followed by the
database delete, and a missing on-disk file is not an error — the database
delete still runs and the call still succeeds. -/
theorem delete_file_spec (rows : List MediaRow) (disk : List String) (id : Nat)
    (user_id : String) (r : MediaRow)
    (hfind : rows.find? (fun q => decide (q.id = id)) = some r)
    (howner : r.user_id = user_id) :
    (delete_file rows disk id user_id).1 = true ∧
    (delete_file rows disk id user_id).2.1
      = rows.filter (fun q => decide (q.id ≠ id)) ∧
    ((delete_file rows disk id user_id).2.2).getLast? = some (FsEffect.dbDelete id) ∧
    (r.file_path ∉ disk → (delete_file rows disk id user_id).2.2
      = [FsEffect.dbDelete id]) ∧
    (r.file_path ∈ disk → (delete_file rows disk id user_id).2.2
      = [FsEffect.unlink r.file_path, FsEffect.dbDelete id]) := by
  have hres : delete_file rows disk id user_id
      = (true, rows.filter fun q => decide (q.id ≠ id),
         (if r.file_path ∈ disk then [FsEffect.unlink r.file_path] else [])
           ++ [FsEffect.dbDelete id]) := by
    unfold delete_file
    rw [hfind]
    dsimp only
    rw [if_neg (show ¬(r.user_id ≠ user_id) by simp [howner])]
  rw [hres]
  refine ⟨rfl, rfl, ?_, ?_, ?_⟩
  · by_cases hd : r.file_path ∈ disk
    · simp [hd]
    · simp [hd]
  · intro hd; simp [hd]
  · intro hd; simp [hd]

/-- C7 witness: the amended theorem applied to a concrete store with the
blob present on disk. -/
theorem delete_file_spec_witness :
    ([sampleMediaRow].find? fun q => decide (q.id = 1)) = some sampleMediaRow ∧
    sampleMediaRow.user_id = "u1" ∧
    ((delete_file [sampleMediaRow] ["p0", "q1"] 1 "u1").1 = true ∧
     (delete_file [sampleMediaRow] ["p0", "q1"] 1 "u1").2.1
       = [sampleMediaRow].filter (fun q => decide (q.id ≠ 1)) ∧
     ((delete_file [sampleMediaRow] ["p0", "q1"] 1 "u1").2.2).getLast?
       = some (FsEffect.dbDelete 1) ∧
     (sampleMediaRow.file_path ∉ (["p0", "q1"] : List String) →
       (delete_file [sampleMediaRow] ["p0", "q1"] 1 "u1").2.2 = [FsEffect.dbDelete 1]) ∧
     (sampleMediaRow.file_path ∈ (["p0", "q1"] : List String) →
       (delete_file [sampleMediaRow] ["p0", "q1"] 1 "u1").2.2
         = [FsEffect.unlink sampleMediaRow.file_path, FsEffect.dbDelete 1])) :=
  ⟨by decide, by decide,
   delete_file_spec [sampleMediaRow] ["p0", "q1"] 1 "u1" sampleMediaRow
     (by decide) (by decide)⟩

/-! ### C5 theorems -/

/-- C5 counterexample: when Whisper returns empty text, the transcribe
activity's result write still sets `status = completed` with an empty
`full_text`, so completion does not imply a non-empty transcript. -/
theorem completed_empty_transcript_cex :
    (transcribe_activity_success pendingTranscription { text := "" }).status
      = "completed" ∧
    (transcribe_activity_success pendingTranscription { text := "" }).transcript
      = "" :=
  ⟨by decide, by decide⟩

/-- C5 (amended): the transcribe activity's result write sets
`status = completed` unconditionally and stores the Whisper text and
segments verbatim — it enforces neither non-emptiness of `full_text` nor
monotonicity of the segments, so invariant T1 holds exactly when the
Whisper output already satisfies it.  The stored average confidence is the
mean of the present per-segment confidences (0 when there are none, via
the falsy-collapse and rational division by zero). -/
theorem transcribe_result_write_spec (t : TranscriptionRec) (result : WhisperResult) :
    (transcribe_activity_success t result).status = "completed" ∧
    (transcribe_activity_success t result).transcript = result.text ∧
    (transcribe_activity_success t result).segments = some result.segments ∧
    (transcribe_activity_success t result).avg_confidence
      = some ((result.segments.filterMap Segment.confidence).sum
          / ((result.segments.filterMap Segment.confidence).length : Rat)) := by
  refine ⟨rfl, rfl, rfl, ?_⟩
  dsimp only [transcribe_activity_success, update_transcription_result]
  by_cases hc : result.segments.filterMap Segment.confidence = []
  · rw [if_neg (by simp [hc])]
    simp [hc]
  · rw [if_pos hc]
    by_cases hv : (result.segments.filterMap Segment.confidence).sum
        / ((result.segments.filterMap Segment.confidence).length : Rat) = 0
    · simp [hv]
    · simp [hv]

/-! ### C6 theorems -/

set_option maxRecDepth 40000 in
/-- C6 counterexample: the batch path has no empty-text branch — it hands
the (truncated) empty string to the encoder, so the batch result for an
empty text is whatever the encoder returns, not the zero vector; the
zero-vector rule lives only in the single-text `generate_embedding`. -/
theorem batch_empty_text_not_zero_cex :
    generate_embeddings_batch onesEnc [""] = [List.replicate 384 (1 : Rat)] ∧
    List.replicate 384 (1 : Rat) ≠ zeroVec384 ∧
    generate_embedding onesEnc "" = zeroVec384 :=
  ⟨by decide, by decide, by decide⟩

/-- C6 (amended): batch embedding returns exactly one vector per input
text, in input order, each the encoding of the text truncated to at most
5000 characters, and each 384-dimensional when the encoder is; the
all-zero-vector-for-empty-text rule is implemented only by the single-text
`generate_embedding`, not by the batch path. -/
theorem batch_embedding_spec (enc : String → Vec) (texts : List String)
    (henc : ∀ s, (enc s).length = 384) :
    (generate_embeddings_batch enc texts).length = texts.length ∧
    (∀ (i : Nat) (h1 : i < texts.length)
        (h2 : i < (generate_embeddings_batch enc texts).length),
      (generate_embeddings_batch enc texts).get ⟨i, h2⟩
        = enc (pyTruncate5000 (texts.get ⟨i, h1⟩))) ∧
    (∀ v ∈ generate_embeddings_batch enc texts, v.length = 384) ∧
    (∀ s, (pyTruncate5000 s).length ≤ 5000) ∧
    generate_embedding enc "" = zeroVec384 := by
  have htrunc : ∀ s : String, (pyTruncate5000 s).length ≤ 5000 := by
    intro s
    unfold pyTruncate5000
    by_cases hlen : s.length > 5000
    · rw [if_pos hlen]
      show (s.data.take 5000).length ≤ 5000
      simp
    · rw [if_neg hlen]
      omega
  by_cases hnil : texts = []
  · subst hnil
    refine ⟨rfl, ?_, ?_, htrunc, rfl⟩
    · intro i h1 _
      cases h1
    · intro v hv
      cases hv
  · unfold generate_embeddings_batch
    rw [if_neg hnil]
    refine ⟨by simp, ?_, ?_, htrunc, rfl⟩
    · intro i h1 h2
      simp [List.getElem_map]
    · intro v hv
      simp only [List.mem_map] at hv
      rcases hv with ⟨x, _, rfl⟩
      exact henc x

/-- C6 witness: the amended theorem at a concrete encoder and batch,
including an empty text in the batch. -/
theorem batch_embedding_spec_witness :
    (∀ s, (constEnc s).length = 384) ∧
    ((generate_embeddings_batch constEnc ["a", ""]).length
        = (["a", ""] : List String).length ∧
     (∀ (i : Nat) (h1 : i < (["a", ""] : List String).length)
         (h2 : i < (generate_embeddings_batch constEnc ["a", ""]).length),
       (generate_embeddings_batch constEnc ["a", ""]).get ⟨i, h2⟩
         = constEnc (pyTruncate5000 ((["a", ""] : List String).get ⟨i, h1⟩))) ∧
     (∀ v ∈ generate_embeddings_batch constEnc ["a", ""], v.length = 384) ∧
     (∀ s, (pyTruncate5000 s).length ≤ 5000) ∧
     generate_embedding constEnc "" = zeroVec384) :=
  ⟨fun _ => List.length_replicate 384 0,
   batch_embedding_spec constEnc ["a", ""] (fun _ => List.length_replicate 384 0)⟩

/-! ### C8 theorems -/

/-- C8 counterexample: a failed `transcribe_activity` attempt writes
`failed` to the job row, and the runtime's retry then writes `processing`
to the same row — the job leaves a terminal state, violating terminality
across the reachable two-attempt execution. -/
theorem job_terminality_cex :
    retry_job_writes transcribe_attempt_job_writes [false, true]
      = [JobStatus.processing, JobStatus.failed, JobStatus.processing] ∧
    no_write_after_terminal
      (retry_job_writes transcribe_attempt_job_writes [false, true]) = false :=
  ⟨by decide, by decide⟩

/-- C8 (amended): within any single attempt of the transcribe, embed or
download activity, no job-row write follows a terminal write; terminality
can fail only across attempts, where a retry overwrites a `failed` row
back to `processing`. -/
theorem job_terminal_within_attempt :
    ∀ b : Bool,
      no_write_after_terminal (transcribe_attempt_job_writes b) = true ∧
      no_write_after_terminal (embed_attempt_job_writes b) = true ∧
      no_write_after_terminal (download_attempt_job_writes b) = true := by
  intro b
  cases b <;> exact ⟨by decide, by decide, by decide⟩

end MxWhisper
